import Mathlib

/-!
Verification of `src/sandbox/demo3.py` from the snail-scheme repository.

The script defines three Fibonacci functions:
* `fibonacci`: naive recursion over Python ints;
* `fibonacci_loop`: an iterative version whose `for _ in range(n+1)` loop
  runs `n+1` iterations of the update `(p0, p1) <- (p1, p0 + p1)` starting
  from `(0, 1)`;
* `fibonacci_numba_loop`: times one invocation of an inner copy of the
  iterative function and prints the elapsed duration.

Python integers are unbounded, so they are embedded as `ℤ`.  The wall clock
reads in `fibonacci_numba_loop` are embedded as two oracle inputs of type
`ℚ`, and its observable effects as an explicit record.
-/

namespace Demo3

/-- Embedding of `fibonacci` (demo3.py lines 1-5):
`if n <= 1: return n else: return fibonacci(n-1) + fibonacci(n-2)`. -/
def fibonacci (n : ℤ) : ℤ :=
  if n ≤ 1 then n
  else fibonacci (n - 1) + fibonacci (n - 2)
termination_by n.toNat
decreasing_by
  · omega
  · omega

/-- One iteration of the loop body `p0, p1 = p1, p0 + p1`. -/
def fibStep (p : ℤ × ℤ) : ℤ × ℤ := (p.2, p.1 + p.2)

/-- `fibLoopIter k p` applies the loop body `k` times to the accumulator
pair `p`, in the order the `for` loop executes them. -/
def fibLoopIter : ℕ → ℤ × ℤ → ℤ × ℤ
  | 0, p => p
  | k + 1, p => fibLoopIter k (fibStep p)

/-- Embedding of `fibonacci_loop` (demo3.py lines 7-15): the base case
returns `n` for `n ≤ 1`; otherwise `p0, p1 = 0, 1`, the body runs once per
element of `range(n+1)` (that is, `(n+1).toNat` times, and `n + 1 ≥ 3`
here), and the final `p1` is returned. -/
def fibonacci_loop (n : ℤ) : ℤ :=
  if n ≤ 1 then n
  else (fibLoopIter (n + 1).toNat (0, 1)).2

/-- Embedding of the inner function `jitted_fibonacci_loop` defined inside
`fibonacci_numba_loop` (demo3.py lines 21-30).  Its body is a verbatim copy
of `fibonacci_loop`; the `@numba.jit()` decoration does not change the
mathematical function computed. -/
def jitted_fibonacci_loop (n : ℤ) : ℤ :=
  if n ≤ 1 then n
  else (fibLoopIter (n + 1).toNat (0, 1)).2

/-- Observable behaviour of one call of `fibonacci_numba_loop`:
how many times the inner function was invoked, the value it produced,
what the outer function returns to its caller (`none` models Python's
implicit `None`), and the lines printed to standard output, each a fixed
message text paired with the numeric duration interpolated into it. -/
structure NumbaRun where
  innerCalls : ℕ
  innerValue : ℤ
  returned : Option ℤ
  printed : List (String × ℚ)
  deriving DecidableEq

/-- The fixed text of the message printed by `fibonacci_numba_loop`. -/
def numbaMessage : String := "Excluding compilation and this message, took: "

/-- Embedding of `fibonacci_numba_loop` (demo3.py lines 17-36).  The two
`time.time()` reads are modelled as oracle inputs `start` and `finish`
(first and second read, in program order).  The function calls the inner
function once on `n_value`, discards its value, returns `None`, and prints
one line consisting of the fixed message and the duration `finish - start`. -/
def fibonacci_numba_loop (n_value : ℤ) (start finish : ℚ) : NumbaRun :=
  { innerCalls := 1
    innerValue := jitted_fibonacci_loop n_value
    returned := none
    printed := [(numbaMessage, finish - start)] }

/-- Embedding of the module-level statement `print(fibonacci_loop(30))`
(demo3.py line 38): the list of integers the module prints on load. -/
def moduleOutput : List ℤ := [fibonacci_loop 30]

/-- Fuel-indexed evaluator for the recursive `fibonacci`: `none` means the
fuel ran out before the call tree bottomed out.  Used to state that the
Python recursion terminates. -/
def fibFuel : ℕ → ℤ → Option ℤ
  | 0, _ => none
  | fuel + 1, n =>
    if n ≤ 1 then some n
    else
      match fibFuel fuel (n - 1), fibFuel fuel (n - 2) with
      | some a, some b => some (a + b)
      | _, _ => none

/-- Maximum number of `fibonacci` frames simultaneously on the stack when
evaluating `fibonacci n` (the root frame counts as one). -/
def fibDepth (n : ℤ) : ℕ :=
  if n ≤ 1 then 1
  else 1 + max (fibDepth (n - 1)) (fibDepth (n - 2))
termination_by n.toNat
decreasing_by
  · omega
  · omega

/-! ### Helper lemmas -/

/-- The loop invariant: starting the loop from two consecutive Fibonacci
numbers, `k` iterations advance the pair by `k` positions. -/
lemma fibLoopIter_fib (k m : ℕ) :
    fibLoopIter k ((Nat.fib m : ℤ), (Nat.fib (m + 1) : ℤ)) =
      ((Nat.fib (m + k) : ℤ), (Nat.fib (m + k + 1) : ℤ)) := by
  induction k generalizing m with
  | zero => simp [fibLoopIter]
  | succ k ih =>
    have hstep : fibStep ((Nat.fib m : ℤ), (Nat.fib (m + 1) : ℤ)) =
        ((Nat.fib (m + 1) : ℤ), (Nat.fib (m + 1 + 1) : ℤ)) := by
      simp [fibStep, Nat.fib_add_two]
    rw [fibLoopIter, hstep, ih (m + 1)]
    have h1 : m + 1 + k = m + (k + 1) := by omega
    rw [h1]

/-- For `n > 1`, the loop version computes `F(n + 2)`. -/
lemma fibonacci_loop_eq_fib (n : ℤ) (h : 1 < n) :
    fibonacci_loop n = (Nat.fib (n.toNat + 2) : ℤ) := by
  rw [fibonacci_loop, if_neg (by omega)]
  have h0 := fibLoopIter_fib (n + 1).toNat 0
  simp only [Nat.fib_zero, Nat.fib_one, Nat.cast_zero, Nat.cast_one,
    Nat.zero_add, zero_add] at h0
  rw [h0]
  have : (n + 1).toNat + 1 = n.toNat + 2 := by omega
  rw [this]

/-- Over natural-number inputs, the recursive embedding agrees with
Mathlib's `Nat.fib`. -/
lemma fibonacci_natCast : ∀ k : ℕ, fibonacci (k : ℤ) = (Nat.fib k : ℤ) := by
  intro k
  induction k using Nat.strong_induction_on with
  | _ k ih =>
    match k, ih with
    | 0, _ => rw [fibonacci]; norm_num
    | 1, _ => rw [fibonacci]; norm_num
    | (m + 2), ih =>
      rw [fibonacci, if_neg (by push_cast; omega)]
      have e1 : ((m + 2 : ℕ) : ℤ) - 1 = ((m + 1 : ℕ) : ℤ) := by push_cast; ring
      have e2 : ((m + 2 : ℕ) : ℤ) - 2 = ((m : ℕ) : ℤ) := by push_cast; ring
      rw [e1, e2, ih (m + 1) (by omega), ih m (by omega), Nat.fib_add_two]
      push_cast
      ring

/-- The recursive embedding computes `Nat.fib` on nonnegative inputs. -/
lemma fibonacci_eq_fib (n : ℤ) (h : 0 ≤ n) :
    fibonacci n = (Nat.fib n.toNat : ℤ) := by
  have := fibonacci_natCast n.toNat
  rwa [Int.toNat_of_nonneg h] at this

/-- The loop helper is iteration of the loop body. -/
lemma fibLoopIter_eq_iterate (k : ℕ) (p : ℤ × ℤ) :
    fibLoopIter k p = fibStep^[k] p := by
  induction k generalizing p with
  | zero => rfl
  | succ k ih => rw [fibLoopIter, ih, Function.iterate_succ_apply]

/-- Any fuel strictly above the input is enough for the fuelled evaluator
to finish, and it then agrees with the total embedding: the Python
recursion terminates on every nonnegative input. -/
lemma fibFuel_of_lt : ∀ fuel k : ℕ, k < fuel →
    fibFuel fuel (k : ℤ) = some (fibonacci (k : ℤ)) := by
  intro fuel
  induction fuel with
  | zero => intro k h; omega
  | succ fuel ih =>
    intro k h
    match k with
    | 0 => rw [fibFuel, if_pos (by norm_num), fibonacci, if_pos (by norm_num)]
    | 1 => rw [fibFuel, if_pos (by norm_num), fibonacci, if_pos (by norm_num)]
    | (m + 2) =>
      have hc : ¬ ((m + 2 : ℕ) : ℤ) ≤ 1 := by push_cast; omega
      have e1 : ((m + 2 : ℕ) : ℤ) - 1 = ((m + 1 : ℕ) : ℤ) := by push_cast; ring
      have e2 : ((m + 2 : ℕ) : ℤ) - 2 = ((m : ℕ) : ℤ) := by push_cast; ring
      rw [fibFuel, if_neg hc, e1, e2, ih (m + 1) (by omega), ih m (by omega)]
      conv_rhs => rw [fibonacci]
      rw [if_neg hc, e1, e2]

/-- The stack-depth function evaluates to `k` on every positive natural
input: the deepest chain of frames is `k, k-1, ..., 1`. -/
lemma fibDepth_natCast : ∀ k : ℕ, 1 ≤ k → fibDepth (k : ℤ) = k := by
  intro k
  induction k using Nat.strong_induction_on with
  | _ k ih =>
    match k, ih with
    | 0, _ => intro h; exact absurd h (by norm_num)
    | 1, _ => intro _; rw [fibDepth]; norm_num
    | 2, _ =>
      intro _
      rw [fibDepth, if_neg (by norm_num)]
      norm_num
      rw [fibDepth, if_pos (by norm_num), fibDepth, if_pos (by norm_num)]
      simp
    | (m + 3), ih =>
      intro _
      have hc : ¬ ((m + 3 : ℕ) : ℤ) ≤ 1 := by push_cast; omega
      have e1 : ((m + 3 : ℕ) : ℤ) - 1 = ((m + 2 : ℕ) : ℤ) := by push_cast; ring
      have e2 : ((m + 3 : ℕ) : ℤ) - 2 = ((m + 1 : ℕ) : ℤ) := by push_cast; ring
      rw [fibDepth, if_neg hc, e1, e2, ih (m + 2) (by omega) (by omega),
        ih (m + 1) (by omega) (by omega)]
      omega

/-! ### Claim theorems -/

/-- Claim C1, counterexample: at `n = 2` the loop version returns `3`,
while `F(n+1) = F(3) = 2`, so `fibonacci_loop` does not return `F(n+1)`. -/
theorem fibonacci_loop_two_ne_fib_three :
    fibonacci_loop 2 ≠ (Nat.fib 3 : ℤ) := by decide

/-- Claim C1, amended: for every integer `n > 1`, `fibonacci_loop n`
returns `F(n+2)` — two steps beyond the mathematically defined `F(n)`
(with `F(0)=0`, `F(1)=1`, `F(n)=F(n-1)+F(n-2)`), not one. -/
theorem fibonacci_loop_returns_fib_add_two (n : ℤ) (h : 1 < n) :
    fibonacci_loop n = (Nat.fib (n.toNat + 2) : ℤ) :=
  fibonacci_loop_eq_fib n h

/-- Witness for claim C1 at `n = 2`. -/
theorem fibonacci_loop_returns_fib_add_two_witness :
    (1 : ℤ) < 2 ∧ fibonacci_loop 2 = (Nat.fib ((2 : ℤ).toNat + 2) : ℤ) :=
  ⟨by decide, fibonacci_loop_returns_fib_add_two 2 (by decide)⟩

/-- Claim C2: for every integer `n ≥ 0`, `fibonacci n` is the
mathematically correct `F(n)`; in particular `fibonacci 10 = 55`,
`fibonacci 0 = 0` and `fibonacci 1 = 1`. -/
theorem fibonacci_computes_fib :
    (∀ n : ℤ, 0 ≤ n → fibonacci n = (Nat.fib n.toNat : ℤ)) ∧
    fibonacci 10 = 55 ∧ fibonacci 0 = 0 ∧ fibonacci 1 = 1 := by
  refine ⟨fibonacci_eq_fib, ?_, ?_, ?_⟩
  · have h := fibonacci_natCast 10
    norm_num at h
    rw [h]
  · rw [fibonacci]; norm_num
  · rw [fibonacci]; norm_num

/-- Witness for claim C2 at `n = 7`. -/
theorem fibonacci_computes_fib_witness :
    (0 : ℤ) ≤ 7 ∧ fibonacci 7 = (Nat.fib (7 : ℤ).toNat : ℤ) :=
  ⟨by decide, fibonacci_computes_fib.1 7 (by decide)⟩

/-- Claim C3: for every integer `n > 1`, `fibonacci_loop n` starts the
accumulator pair at `(0, 1)`, applies the update `(p0, p1) ← (p1, p0+p1)`
exactly `n + 1` times, and returns the final `p1`. -/
theorem fibonacci_loop_iterates (n : ℤ) (h : 1 < n) :
    fibonacci_loop n = (fibStep^[(n + 1).toNat] ((0 : ℤ), (1 : ℤ))).2 ∧
    (((n + 1).toNat : ℤ)) = n + 1 := by
  constructor
  · rw [fibonacci_loop, if_neg (by omega), fibLoopIter_eq_iterate]
  · omega

/-- Witness for claim C3 at `n = 2`. -/
theorem fibonacci_loop_iterates_witness :
    fibonacci_loop 2 = (fibStep^[((2 : ℤ) + 1).toNat] ((0 : ℤ), (1 : ℤ))).2 ∧
    ((((2 : ℤ) + 1).toNat : ℤ)) = 2 + 1 :=
  fibonacci_loop_iterates 2 (by decide)

/-- Claim C4: the inner jitted function computes exactly the same function
as the top-level `fibonacci_loop` on every integer input. -/
theorem jitted_eq_fibonacci_loop (n : ℤ) :
    jitted_fibonacci_loop n = fibonacci_loop n := rfl

/-- Claim C5: for every integer `n > 1`, `fibonacci_loop n` equals the
recursive `fibonacci (n + 2)`. -/
theorem fibonacci_loop_eq_fibonacci_add_two (n : ℤ) (h : 1 < n) :
    fibonacci_loop n = fibonacci (n + 2) := by
  rw [fibonacci_loop_eq_fib n h, fibonacci_eq_fib (n + 2) (by omega)]
  have ht : (n + 2).toNat = n.toNat + 2 := by omega
  rw [ht]

/-- Witness for claim C5 at `n = 2`. -/
theorem fibonacci_loop_eq_fibonacci_add_two_witness :
    fibonacci_loop 2 = fibonacci (2 + 2) :=
  fibonacci_loop_eq_fibonacci_add_two 2 (by decide)

/-- Claim C6: on load the module prints exactly one integer line, the
return value of `fibonacci_loop 30`, whose value is `2178309`. -/
theorem moduleOutput_single_line :
    moduleOutput = [fibonacci_loop 30] ∧ moduleOutput.length = 1 ∧
    moduleOutput = [2178309] := by
  refine ⟨rfl, rfl, ?_⟩
  decide

/-- Claim C7: one call of `fibonacci_numba_loop` invokes the inner
function exactly once, discards its value (returns `None`), and prints
exactly one line, the fixed message text with the elapsed duration, which
is nonnegative whenever the second clock read is at least the first. -/
theorem fibonacci_numba_loop_effects (n : ℤ) (t0 t1 : ℚ) (h : t0 ≤ t1) :
    (fibonacci_numba_loop n t0 t1).innerCalls = 1 ∧
    (fibonacci_numba_loop n t0 t1).innerValue = jitted_fibonacci_loop n ∧
    (fibonacci_numba_loop n t0 t1).returned = none ∧
    (fibonacci_numba_loop n t0 t1).printed = [(numbaMessage, t1 - t0)] ∧
    0 ≤ t1 - t0 :=
  ⟨rfl, rfl, rfl, rfl, by linarith⟩

/-- Witness for claim C7 at `n = 3`, clock reads `0` and `1`. -/
theorem fibonacci_numba_loop_effects_witness :
    (0 : ℚ) ≤ 1 ∧
    ((fibonacci_numba_loop 3 0 1).innerCalls = 1 ∧
     (fibonacci_numba_loop 3 0 1).innerValue = jitted_fibonacci_loop 3 ∧
     (fibonacci_numba_loop 3 0 1).returned = none ∧
     (fibonacci_numba_loop 3 0 1).printed = [(numbaMessage, 1 - 0)] ∧
     0 ≤ (1 : ℚ) - 0) :=
  ⟨by norm_num, fibonacci_numba_loop_effects 3 0 1 (by norm_num)⟩

/-- Claim C8: `fibonacci_loop 0 = 0` and `fibonacci_loop 1 = 1`, both via
the `n ≤ 1` base branch, without entering the accumulator loop. -/
theorem fibonacci_loop_base_cases :
    fibonacci_loop 0 = 0 ∧ fibonacci_loop 1 = 1 := by decide

/-- Claim C9, counterexample: the claim asserts recursion depth `n` for
every `n ≥ 0`, but at `n = 0` the evaluation consists of the root frame
alone, so the depth is `1`, not `0`. -/
theorem fibDepth_zero_ne_zero : (fibDepth 0 : ℤ) ≠ 0 := by
  rw [fibDepth]
  norm_num

/-- Claim C9, amended: for every integer `n ≥ 0` the recursive `fibonacci`
terminates (fuel `n + 1` suffices for the fuelled evaluator), and its
recursion depth — stack frames, the root frame included — equals `n` for
every `n ≥ 1` (at `n = 0` it is `1`). -/
theorem fibonacci_terminates_linear_depth (n : ℤ) :
    (0 ≤ n → fibFuel (n.toNat + 1) n = some (fibonacci n)) ∧
    (1 ≤ n → (fibDepth n : ℤ) = n) := by
  constructor
  · intro h
    have hk := fibFuel_of_lt (n.toNat + 1) n.toNat (by omega)
    rwa [Int.toNat_of_nonneg h] at hk
  · intro h
    have hk := fibDepth_natCast n.toNat (by omega)
    rw [Int.toNat_of_nonneg (by omega : (0 : ℤ) ≤ n)] at hk
    rw [hk]
    omega

/-- Witness for claim C9 at `n = 3`. -/
theorem fibonacci_terminates_linear_depth_witness :
    ((0 : ℤ) ≤ 3 ∧ fibFuel ((3 : ℤ).toNat + 1) 3 = some (fibonacci 3)) ∧
    ((1 : ℤ) ≤ 3 ∧ (fibDepth 3 : ℤ) = 3) :=
  ⟨⟨by decide, (fibonacci_terminates_linear_depth 3).1 (by decide)⟩,
   ⟨by decide, (fibonacci_terminates_linear_depth 3).2 (by decide)⟩⟩

/-- Claim C10: for every integer `n < 0`, both functions hit the `n ≤ 1`
base branch, terminate (fuel `1` suffices), and return `n` itself. -/
theorem negative_inputs_return_n (n : ℤ) (h : n < 0) :
    fibFuel 1 n = some n ∧ fibonacci n = n ∧ fibonacci_loop n = n := by
  refine ⟨?_, ?_, ?_⟩
  · rw [fibFuel, if_pos (by omega)]
  · rw [fibonacci, if_pos (by omega)]
  · rw [fibonacci_loop, if_pos (by omega)]

/-- Witness for claim C10 at `n = -5`. -/
theorem negative_inputs_return_n_witness :
    (-5 : ℤ) < 0 ∧
    (fibFuel 1 (-5) = some (-5) ∧ fibonacci (-5) = -5 ∧
     fibonacci_loop (-5) = -5) :=
  ⟨by decide, negative_inputs_return_n (-5) (by decide)⟩

end Demo3
